import Mathlib

/-!
Verification development for the Alpha Quantum QAOA engine
(`model/quantum_model.py`).

The circuit builder, cost function, optimization loop, parameter
initialization and T-count bookkeeping are embedded directly from the
source.  The quantum gate semantics (amplitude vector, Hadamard, RX and
Pauli-string exponential application, Pauli-Z expectation values) live in
the external simulator library in the original program; they are modelled
here from the specification of the State Vector Engine and Expectation
Evaluator.
-/

namespace AlphaQuantum

/-- A Pauli axis of a factor in a Pauli string. -/
inductive Axis : Type
  | X : Axis
  | Y : Axis
  | Z : Axis
deriving DecidableEq, Repr

/-- A weighted Pauli string: a real coefficient together with the list of
(qubit index, axis) factors, mirroring one term of a `qml.Hamiltonian`. -/
structure PauliTerm : Type where
  coeff : ℝ
  paulis : List (Nat × Axis)

/-- A gate of the QAOA ansatz: the three operator kinds the circuit body of
`qaoa_circuit` applies (`qml.Hadamard`, `qml.RX`, and the per-term
exponentials of `qml.ApproxTimeEvolution` with one Trotter step). -/
inductive Gate : Type
  | hadamard (q : Nat)
  | rx (q : Nat) (theta : ℝ)
  | pauliExp (t : PauliTerm) (gamma : ℝ)

/-- `alphatensor_quantum_t_reduction`: the source returns its argument
unchanged (an unimplemented placeholder). -/
def alphatensor_quantum_t_reduction (hamiltonian : List PauliTerm) : List PauliTerm :=
  hamiltonian

/-- The gate sequence assembled by the body of `qaoa_circuit`: Hadamard on
every qubit, then `p = len(params) / 2` layers, each applying the problem
Hamiltonian evolution scaled by `params[i]` (via
`apply_problem_unitary_with_t_reduction`, one Pauli exponential per term of
the reduced Hamiltonian, modelling `qml.ApproxTimeEvolution` with one
Trotter step) followed by `RX(params[p+i])` on every qubit.  Out-of-range
parameter accesses default to `0`; with the access pattern of the source
(`i < p` and `p + i < 2*p ≤ len(params)`) the default is never used. -/
def qaoa_circuit_gates (n_qubits : Nat) (problem_hamiltonian : List PauliTerm)
    (params : List ℝ) : List Gate :=
  let p := params.length / 2
  ((List.range n_qubits).map Gate.hadamard)
    ++ (List.range p).flatMap (fun i =>
         ((alphatensor_quantum_t_reduction problem_hamiltonian).map
            (fun t => Gate.pauliExp t (params.getD i 0)))
           ++ (List.range n_qubits).map (fun j => Gate.rx j (params.getD (p + i) 0)))

/-! ## State Vector Engine (modelled from the spec) -/

/-- A computational basis state of an `n`-qubit register, as the bit carried
by each qubit. -/
abbrev Basis (n : Nat) := Fin n → Bool

/-- Modelled from the spec: a StateVector is the ordered family of `2 ^ n`
complex amplitudes, here indexed by the bit assignment of each qubit. -/
abbrev StateVector (n : Nat) := Basis n → ℂ

/-- The total squared amplitude mass of a state vector. -/
noncomputable def normSqTotal {n : Nat} (v : StateVector n) : ℝ :=
  ∑ b : Basis n, Complex.normSq (v b)

/-- Modelled from the spec: `create(n)` is the all-zero basis state,
amplitude `1` at index `0` and `0` elsewhere. -/
noncomputable def initState (n : Nat) : StateVector n :=
  fun b => if b = fun _ => false then 1 else 0

/-- Application of a one-qubit operator, given by its `2 × 2` matrix (row,
column indexed by the bit), to qubit `q` of a state vector. -/
noncomputable def applySingle {n : Nat} (q : Fin n) (m : Bool → Bool → ℂ)
    (v : StateVector n) : StateVector n :=
  fun b => m (b q) false * v (Function.update b q false)
    + m (b q) true * v (Function.update b q true)

/-- The Hadamard matrix `(1/√2) [[1,1],[1,-1]]`. -/
noncomputable def hadamardMat : Bool → Bool → ℂ
  | true, true => -(((Real.sqrt 2)⁻¹ : ℝ) : ℂ)
  | _, _ => (((Real.sqrt 2)⁻¹ : ℝ) : ℂ)

/-- The RX rotation matrix with `cos (θ/2)` on the diagonal and
`-i sin (θ/2)` off the diagonal. -/
noncomputable def rxMat (theta : ℝ) : Bool → Bool → ℂ
  | false, false => ((Real.cos (theta / 2) : ℝ) : ℂ)
  | true, true => ((Real.cos (theta / 2) : ℝ) : ℂ)
  | _, _ => -Complex.I * ((Real.sin (theta / 2) : ℝ) : ℂ)

/-- Basis rotation into the Z basis for one Pauli axis: `X` uses the
Hadamard, `Y` the `S† · Hadamard` composite `(1/√2) [[1,1],[-i,i]]`, and `Z`
needs no rotation. -/
noncomputable def axisInMat : Axis → Bool → Bool → ℂ
  | Axis.X => hadamardMat
  | Axis.Y => fun r c =>
      match r, c with
      | false, _ => (((Real.sqrt 2)⁻¹ : ℝ) : ℂ)
      | true, false => -Complex.I * (((Real.sqrt 2)⁻¹ : ℝ) : ℂ)
      | true, true => Complex.I * (((Real.sqrt 2)⁻¹ : ℝ) : ℂ)
  | Axis.Z => fun r c => if r = c then 1 else 0

/-- The inverse basis rotation for one Pauli axis: the conjugate transpose
of `axisInMat`; for `Y` this is `Hadamard · S = (1/√2) [[1,i],[1,-i]]`. -/
noncomputable def axisOutMat : Axis → Bool → Bool → ℂ
  | Axis.X => hadamardMat
  | Axis.Y => fun r c =>
      match r, c with
      | _, false => (((Real.sqrt 2)⁻¹ : ℝ) : ℂ)
      | false, true => Complex.I * (((Real.sqrt 2)⁻¹ : ℝ) : ℂ)
      | true, true => -Complex.I * (((Real.sqrt 2)⁻¹ : ℝ) : ℂ)
  | Axis.Z => fun r c => if r = c then 1 else 0

/-- The bit of qubit `q` in basis state `b`, extended by `false` beyond the
register (only consulted at in-range indices by guarded callers). -/
def bOf {n : Nat} (b : Basis n) (q : Nat) : Bool :=
  if h : q < n then b ⟨q, h⟩ else false

/-- Modelled from the spec: the diagonal multi-qubit phase of a Pauli-string
exponential, `exp (-i·α)` on basis states of even parity over the
participating qubits and `exp (i·α)` on odd parity. -/
noncomputable def parityPhase {n : Nat} (qs : List Nat) (alpha : ℝ)
    (v : StateVector n) : StateVector n :=
  fun b =>
    Complex.exp ((((if (qs.countP fun q => bOf b q) % 2 = 1 then alpha else -alpha) : ℝ) : ℂ)
        * Complex.I) * v b

/-- One-qubit operator application addressed by a `Nat` wire index; acts as
the identity out of range (guarded callers only reach in-range indices). -/
noncomputable def applySingleNat {n : Nat} (q : Nat) (m : Bool → Bool → ℂ)
    (v : StateVector n) : StateVector n :=
  if h : q < n then applySingle ⟨q, h⟩ m v else v

/-- Modelled from the spec: first-order evolution
`exp (-i·angle·coefficient·P)` of one Pauli string: rotate each
participating qubit into the Z basis, apply the parity-conditioned phase,
then invert the basis rotations. -/
noncomputable def applyPauliExpTotal {n : Nat} (t : PauliTerm) (gamma : ℝ)
    (v : StateVector n) : StateVector n :=
  let vin := t.paulis.foldl (fun w qa => applySingleNat qa.1 (axisInMat qa.2) w) v
  let vph := parityPhase (t.paulis.map Prod.fst) (gamma * t.coeff) vin
  t.paulis.reverse.foldl (fun w qa => applySingleNat qa.1 (axisOutMat qa.2) w) vph

/-- Modelled from the spec and the simulator contract: applying one gate to
an `n`-qubit state; a wire index at or beyond `n` is a simulation-time
error, reported as `none`. -/
noncomputable def applyGateN (n : Nat) : Gate → StateVector n → Option (StateVector n)
  | Gate.hadamard q, v => if q < n then some (applySingleNat q hadamardMat v) else none
  | Gate.rx q theta, v => if q < n then some (applySingleNat q (rxMat theta) v) else none
  | Gate.pauliExp t gamma, v =>
      if t.paulis.all (fun qa => qa.1 < n) then some (applyPauliExpTotal t gamma v)
      else none

/-- Running a gate sequence on a state vector, propagating simulation-time
errors. -/
noncomputable def runGatesN (n : Nat) (gs : List Gate) (v : StateVector n) :
    Option (StateVector n) :=
  gs.foldlM (fun w g => applyGateN n g w) v

/-- Modelled from the spec: `expectationZ(state, qubit)` is the sum over
basis indices of the squared amplitude magnitude times `+1` when the qubit
bit is `0` and `-1` when it is `1`. -/
noncomputable def expectationZ {n : Nat} (v : StateVector n) (q : Nat) : ℝ :=
  ∑ b : Basis n, Complex.normSq (v b) * (if bOf b q then -1 else 1)

/-- The full circuit of `qaoa_circuit`: run the assembled gate sequence from
the all-zero state and return the Pauli-Z expectation value of each qubit
`0 .. n-1` in order (the list comprehension of the source). -/
noncomputable def circuit (n_qubits : Nat) (problem_hamiltonian : List PauliTerm)
    (params : List ℝ) : Option (List ℝ) :=
  (runGatesN n_qubits (qaoa_circuit_gates n_qubits problem_hamiltonian params)
      (initState n_qubits)).map
    (fun v => (List.range n_qubits).map (fun q => expectationZ v q))

/-- `cost_function` of the source: `np.sum` of the expectation values the
circuit returns; a circuit error propagates. -/
noncomputable def cost_function (n_qubits : Nat) (problem_hamiltonian : List PauliTerm)
    (params : List ℝ) : Option ℝ :=
  (circuit n_qubits problem_hamiltonian params).map List.sum

/-! ## Optimization loop and orchestration -/

/-- Modelled from the numpy contract of `np.random.uniform(0, 2π, 2*p)` used
by `ai_parameter_initialization`: draw `2*p` successive variates from the
process-wide generator stream `u` (each in `[0,1)`) starting at the current
stream position `offset`, scaled into `[0, 2π)`.  The source seeds no
generator; the stream and position model the shared global state. -/
noncomputable def ai_parameter_initialization (u : Nat → ℝ) (offset : Nat) (p : Nat) :
    List ℝ :=
  (List.range (2 * p)).map (fun k => 2 * Real.pi * u (offset + k))

/-- The optimizer loop of `run_qaoa_with_ai_optimization`: `steps` remaining
iterations, current iteration index `i`, current parameters.  One step is an
external optimizer call that either returns new parameters or raises
(`none`); on a raise the source catches, logs and breaks, keeping the
current parameters. -/
def optimization_loop (stepF : Nat → List ℝ → Option (List ℝ)) :
    Nat → Nat → List ℝ → List ℝ
  | 0, _, params => params
  | (steps + 1), i, params =>
      match stepF i params with
      | some params2 => optimization_loop stepF steps (i + 1) params2
      | none => params

/-- Pure reference iteration: apply a total step function for the given
number of remaining iterations, tracking the iteration index. -/
def iterate_pure (g : Nat → List ℝ → List ℝ) : Nat → Nat → List ℝ → List ℝ
  | 0, _, params => params
  | (steps + 1), i, params => iterate_pure g steps (i + 1) (g i params)

/-- `calculate_t_count`: the source returns the constant placeholder `0`
for any circuit. -/
def calculate_t_count (_c : Option (List ℝ)) : Nat :=
  0

/-- `post_optimization_simplification`: the source rebuilds the circuit and
returns its evaluation on the final parameters. -/
noncomputable def post_optimization_simplification (n_qubits : Nat)
    (hamiltonian : List PauliTerm) (params : List ℝ) : Option (List ℝ) :=
  circuit n_qubits hamiltonian params

/-- `run_qaoa_with_ai_optimization`: draw initial parameters from the global
generator stream, run the fixed 100-step optimizer loop (breaking on a step
exception), then return the triple of final parameters, final cost and the
T-count of the simplified circuit.  The external optimizer is abstracted as
the step oracle `stepF`. -/
noncomputable def run_qaoa_with_ai_optimization (n_qubits : Nat)
    (stepF : Nat → List ℝ → Option (List ℝ)) (problem_hamiltonian : List PauliTerm)
    (p : Nat) (u : Nat → ℝ) (offset : Nat) : List ℝ × Option ℝ × Nat :=
  let init_params := ai_parameter_initialization u offset p
  let params := optimization_loop stepF 100 0 init_params
  let final_circuit := post_optimization_simplification n_qubits problem_hamiltonian params
  let t_count := calculate_t_count final_circuit
  (params, cost_function n_qubits problem_hamiltonian params, t_count)

/-! ## Helper definitions for the norm-preservation proofs -/

/-- Splitting a basis state into the bit of qubit `q` and the assignment of
the remaining qubits, the latter represented by the state with `q` forced to
`false`. -/
def pairSplit {n : Nat} (q : Fin n) :
    Bool × {b : Basis n // b q = false} ≃ Basis n where
  toFun p := Function.update p.2.1 q p.1
  invFun b := (b q, ⟨Function.update b q false, Function.update_same q false b⟩)
  left_inv := by
    rintro ⟨x, ⟨c, hc⟩⟩
    refine Prod.ext ?_ ?_
    · simp [Function.update_same]
    · apply Subtype.ext
      funext j
      by_cases hj : j = q
      · subst hj
        simp [Function.update_same, hc]
      · simp [Function.update_noteq hj]
  right_inv := by
    intro b
    funext j
    by_cases hj : j = q
    · subst hj
      simp [Function.update_same]
    · simp [Function.update_noteq hj]

/-- A `2 × 2` complex matrix preserves the two-component squared norm. -/
def unitary2 (m : Bool → Bool → ℂ) : Prop :=
  ∀ a b : ℂ,
    Complex.normSq (m false false * a + m false true * b)
      + Complex.normSq (m true false * a + m true true * b)
    = Complex.normSq a + Complex.normSq b

/-! ## Norm preservation lemmas -/

theorem normSqTotal_applySingle {n : Nat} (q : Fin n) (m : Bool → Bool → ℂ)
    (hm : unitary2 m) (v : StateVector n) :
    normSqTotal (applySingle q m v) = normSqTotal v := by
  classical
  unfold normSqTotal
  rw [← Equiv.sum_comp (pairSplit q) (fun b => Complex.normSq (applySingle q m v b)),
      ← Equiv.sum_comp (pairSplit q) (fun b => Complex.normSq (v b)),
      Fintype.sum_prod_type_right, Fintype.sum_prod_type_right]
  refine Finset.sum_congr rfl (fun c _ => ?_)
  have hsplit : ∀ x : Bool, pairSplit q (x, c) = Function.update c.1 q x := fun _ => rfl
  have hbit : ∀ x : Bool, Function.update c.1 q x q = x :=
    fun x => Function.update_same q x c.1
  have hup : ∀ x y : Bool,
      Function.update (Function.update c.1 q x) q y = Function.update c.1 q y :=
    fun x y => Function.update_idem x y c.1
  have hfalse : Function.update c.1 q false = c.1 := by
    have h0 := Function.update_eq_self q c.1
    rw [c.2] at h0
    exact h0
  have happ : ∀ x : Bool,
      applySingle q m v (pairSplit q (x, c))
        = m x false * v c.1 + m x true * v (Function.update c.1 q true) := by
    intro x
    rw [hsplit]
    unfold applySingle
    rw [hbit, hup, hup, hfalse]
  rw [Fintype.sum_bool, Fintype.sum_bool, happ, happ, hsplit, hsplit, hfalse]
  linarith [hm (v c.1) (v (Function.update c.1 q true))]

theorem normSqTotal_applySingleNat {n : Nat} (q : Nat) (m : Bool → Bool → ℂ)
    (hm : unitary2 m) (v : StateVector n) :
    normSqTotal (applySingleNat q m v) = normSqTotal v := by
  unfold applySingleNat
  split
  · exact normSqTotal_applySingle _ m hm v
  · rfl

theorem unitary2_hadamardMat : unitary2 hadamardMat := by
  intro a b
  have hs : ((Real.sqrt 2)⁻¹ : ℝ) * (Real.sqrt 2)⁻¹ = 2⁻¹ := by
    rw [← mul_inv, Real.mul_self_sqrt (by norm_num : (0:ℝ) ≤ 2)]
  simp only [hadamardMat,
    Complex.normSq_apply, Complex.add_re, Complex.add_im, Complex.mul_re, Complex.mul_im,
    Complex.ofReal_re, Complex.ofReal_im, Complex.neg_re, Complex.neg_im]
  linear_combination (2 * (a.re ^ 2 + a.im ^ 2 + b.re ^ 2 + b.im ^ 2)) * hs

theorem unitary2_rxMat (theta : ℝ) : unitary2 (rxMat theta) := by
  intro a b
  have hcs := Real.sin_sq_add_cos_sq (theta / 2)
  simp only [rxMat,
    Complex.normSq_apply, Complex.add_re, Complex.add_im, Complex.mul_re, Complex.mul_im,
    Complex.ofReal_re, Complex.ofReal_im, Complex.neg_re, Complex.neg_im,
    Complex.I_re, Complex.I_im]
  linear_combination (a.re ^ 2 + a.im ^ 2 + b.re ^ 2 + b.im ^ 2) * hcs

theorem unitary2_axisInMat (ax : Axis) : unitary2 (axisInMat ax) := by
  cases ax with
  | X => exact unitary2_hadamardMat
  | Y =>
    intro a b
    have hs : ((Real.sqrt 2)⁻¹ : ℝ) * (Real.sqrt 2)⁻¹ = 2⁻¹ := by
      rw [← mul_inv, Real.mul_self_sqrt (by norm_num : (0:ℝ) ≤ 2)]
    simp only [axisInMat,
      Complex.normSq_apply, Complex.add_re, Complex.add_im, Complex.mul_re, Complex.mul_im,
      Complex.ofReal_re, Complex.ofReal_im, Complex.neg_re, Complex.neg_im,
      Complex.I_re, Complex.I_im]
    linear_combination (2 * (a.re ^ 2 + a.im ^ 2 + b.re ^ 2 + b.im ^ 2)) * hs
  | Z =>
    intro a b
    simp [axisInMat, Complex.normSq_apply]

theorem unitary2_axisOutMat (ax : Axis) : unitary2 (axisOutMat ax) := by
  cases ax with
  | X => exact unitary2_hadamardMat
  | Y =>
    intro a b
    have hs : ((Real.sqrt 2)⁻¹ : ℝ) * (Real.sqrt 2)⁻¹ = 2⁻¹ := by
      rw [← mul_inv, Real.mul_self_sqrt (by norm_num : (0:ℝ) ≤ 2)]
    simp only [axisOutMat,
      Complex.normSq_apply, Complex.add_re, Complex.add_im, Complex.mul_re, Complex.mul_im,
      Complex.ofReal_re, Complex.ofReal_im, Complex.neg_re, Complex.neg_im,
      Complex.I_re, Complex.I_im]
    linear_combination (2 * (a.re ^ 2 + a.im ^ 2 + b.re ^ 2 + b.im ^ 2)) * hs
  | Z =>
    intro a b
    simp [axisOutMat, Complex.normSq_apply]

theorem normSq_exp_real_mul_I (r : ℝ) :
    Complex.normSq (Complex.exp ((r : ℂ) * Complex.I)) = 1 := by
  rw [Complex.normSq_eq_abs, Complex.abs_exp_ofReal_mul_I]
  norm_num

theorem normSqTotal_parityPhase {n : Nat} (qs : List Nat) (alpha : ℝ)
    (v : StateVector n) :
    normSqTotal (parityPhase qs alpha v) = normSqTotal v := by
  unfold normSqTotal parityPhase
  refine Finset.sum_congr rfl (fun b _ => ?_)
  rw [Complex.normSq_mul, normSq_exp_real_mul_I, one_mul]

theorem normSqTotal_foldl_axis {n : Nat} (mats : Axis → Bool → Bool → ℂ)
    (hmats : ∀ ax, unitary2 (mats ax)) (l : List (Nat × Axis)) (v : StateVector n) :
    normSqTotal (l.foldl (fun w qa => applySingleNat qa.1 (mats qa.2) w) v)
      = normSqTotal v := by
  induction l generalizing v with
  | nil => rfl
  | cons qa l ih =>
    rw [List.foldl_cons, ih, normSqTotal_applySingleNat _ _ (hmats qa.2)]

theorem normSqTotal_applyPauliExpTotal {n : Nat} (t : PauliTerm) (gamma : ℝ)
    (v : StateVector n) :
    normSqTotal (applyPauliExpTotal t gamma v) = normSqTotal v := by
  unfold applyPauliExpTotal
  rw [normSqTotal_foldl_axis axisOutMat unitary2_axisOutMat,
      normSqTotal_parityPhase,
      normSqTotal_foldl_axis axisInMat unitary2_axisInMat]

theorem normSqTotal_applyGateN {n : Nat} (g : Gate) (v v2 : StateVector n)
    (h : applyGateN n g v = some v2) : normSqTotal v2 = normSqTotal v := by
  cases g with
  | hadamard q =>
    simp only [applyGateN] at h
    split at h
    · cases h
      exact normSqTotal_applySingleNat q hadamardMat unitary2_hadamardMat v
    · cases h
  | rx q theta =>
    simp only [applyGateN] at h
    split at h
    · cases h
      exact normSqTotal_applySingleNat q (rxMat theta) (unitary2_rxMat theta) v
    · cases h
  | pauliExp t gamma =>
    simp only [applyGateN] at h
    split at h
    · cases h
      exact normSqTotal_applyPauliExpTotal t gamma v
    · cases h

theorem normSqTotal_runGatesN {n : Nat} (gs : List Gate) (v v2 : StateVector n)
    (h : runGatesN n gs v = some v2) : normSqTotal v2 = normSqTotal v := by
  induction gs generalizing v with
  | nil =>
    unfold runGatesN at h
    rw [List.foldlM_nil] at h
    cases h
    rfl
  | cons g gs ih =>
    unfold runGatesN at h
    rw [List.foldlM_cons] at h
    cases hg : applyGateN n g v with
    | none =>
      rw [hg] at h
      cases h
    | some w =>
      rw [hg] at h
      simp only [Option.bind_eq_bind, Option.some_bind] at h
      exact (ih w h).trans (normSqTotal_applyGateN g v w hg)

theorem normSqTotal_initState (n : Nat) : normSqTotal (initState n) = 1 := by
  classical
  unfold normSqTotal initState
  have hpt : ∀ b : Basis n,
      Complex.normSq (if b = fun _ => false then (1 : ℂ) else 0)
        = if b = (fun _ => false) then (1 : ℝ) else 0 := by
    intro b
    by_cases hb : b = fun _ => false <;> simp [hb]
  simp only [hpt]
  rw [Finset.sum_ite_eq' Finset.univ (fun _ => false) (fun _ => (1 : ℝ))]
  simp

/-! ## Claim theorems -/

/-- C1: for every qubit count `n`, Hamiltonian, layer count `p` and
parameter vector of length `2p`, the circuit consists of exactly the
Hadamard layer on qubits `0 .. n-1` followed, for each layer `i`, by the
problem-Hamiltonian evolution scaled by `params[i]` (one Pauli exponential
per term) and RX rotations with angle `params[p+i]` on every qubit, and the
circuit returns the Pauli-Z expectation values of qubits `0 .. n-1` in
order. -/
theorem C1_circuit_structure (n p : Nat) (H : List PauliTerm) (params : List ℝ)
    (hlen : params.length = 2 * p) :
    qaoa_circuit_gates n H params
      = ((List.range n).map Gate.hadamard)
          ++ (List.range p).flatMap (fun i =>
               (H.map (fun t => Gate.pauliExp t (params.getD i 0)))
                 ++ (List.range n).map (fun j => Gate.rx j (params.getD (p + i) 0)))
      ∧ ∀ v : StateVector n,
          runGatesN n (qaoa_circuit_gates n H params) (initState n) = some v →
          circuit n H params = some ((List.range n).map (fun q => expectationZ v q)) := by
  have hp : params.length / 2 = p := by omega
  constructor
  · simp only [qaoa_circuit_gates, alphatensor_quantum_t_reduction]
    rw [hp]
  · intro v hrun
    unfold circuit
    rw [hrun]
    rfl

/-- Witness for C1 at `n = 1`, `p = 0`, the empty Hamiltonian and the empty
parameter vector. -/
theorem C1_circuit_structure_witness :
    ((([] : List ℝ).length = 2 * 0))
      ∧ (qaoa_circuit_gates 1 [] []
          = ((List.range 1).map Gate.hadamard)
              ++ (List.range 0).flatMap (fun i =>
                   (([] : List PauliTerm).map
                      (fun t => Gate.pauliExp t (([] : List ℝ).getD i 0)))
                     ++ (List.range 1).map
                          (fun j => Gate.rx j (([] : List ℝ).getD (0 + i) 0)))
          ∧ ∀ v : StateVector 1,
              runGatesN 1 (qaoa_circuit_gates 1 [] []) (initState 1) = some v →
              circuit 1 [] [] = some ((List.range 1).map (fun q => expectationZ v q))) :=
  ⟨rfl, C1_circuit_structure 1 0 [] [] rfl⟩

/-- C2: for every `n` in `1 .. 10` and every sequence of Hadamard, RX and
Pauli-exponential applications accepted by the simulator, the sum over all
basis indices of the squared amplitude magnitudes stays within `1e-9` of
`1` (it is in fact exactly `1` in exact arithmetic). -/
theorem C2_sum_normSq_invariant (n : Nat) (_h1 : 1 ≤ n) (_h2 : n ≤ 10)
    (gs : List Gate) (v : StateVector n)
    (hrun : runGatesN n gs (initState n) = some v) :
    |normSqTotal v - 1| ≤ 1 / 1000000000 := by
  rw [normSqTotal_runGatesN gs (initState n) v hrun, normSqTotal_initState]
  norm_num

/-- Witness for C2 at `n = 2` with the empty gate sequence. -/
theorem C2_sum_normSq_invariant_witness :
    (1 ≤ 2 ∧ 2 ≤ 10 ∧ runGatesN 2 [] (initState 2) = some (initState 2))
      ∧ |normSqTotal (initState 2) - 1| ≤ 1 / 1000000000 :=
  ⟨⟨by norm_num, by norm_num, rfl⟩,
    C2_sum_normSq_invariant 2 (by norm_num) (by norm_num) [] (initState 2) rfl⟩

/-- C3: the scalar cost evaluated during optimization is the plain sum of
the per-qubit Pauli-Z expectation values the circuit returns; no
normalization or weighting is applied. -/
theorem C3_cost_is_plain_sum (n : Nat) (H : List PauliTerm) (params : List ℝ)
    (v : StateVector n)
    (hrun : runGatesN n (qaoa_circuit_gates n H params) (initState n) = some v) :
    cost_function n H params
      = some (((List.range n).map (fun q => expectationZ v q)).sum) := by
  unfold cost_function circuit
  rw [hrun]
  rfl

/-- Witness for C3 at `n = 1` with the empty Hamiltonian and empty
parameters: the circuit is the single Hadamard. -/
theorem C3_cost_is_plain_sum_witness :
    (runGatesN 1 (qaoa_circuit_gates 1 [] []) (initState 1)
        = some (applySingleNat 0 hadamardMat (initState 1)))
      ∧ cost_function 1 [] []
        = some (((List.range 1).map
            (fun q => expectationZ (applySingleNat 0 hadamardMat (initState 1)) q)).sum) :=
  ⟨rfl, C3_cost_is_plain_sum 1 [] [] (applySingleNat 0 hadamardMat (initState 1)) rfl⟩

/-- C9: the initializer draw has length exactly `2p` and every entry lies
in `[0, 2π)`, given that the generator stream produces values in
`[0, 1)` (the contract of the uniform variate source). -/
theorem C9_sample_length_and_range (u : Nat → ℝ) (offset p : Nat)
    (hu : ∀ k, 0 ≤ u k ∧ u k < 1) :
    (ai_parameter_initialization u offset p).length = 2 * p
      ∧ ∀ x ∈ ai_parameter_initialization u offset p, 0 ≤ x ∧ x < 2 * Real.pi := by
  constructor
  · unfold ai_parameter_initialization
    rw [List.length_map, List.length_range]
  · intro x hx
    unfold ai_parameter_initialization at hx
    rcases List.mem_map.mp hx with ⟨k, _, rfl⟩
    rcases hu (offset + k) with ⟨h0, h1⟩
    have hpi : (0:ℝ) < 2 * Real.pi := by positivity
    constructor
    · exact mul_nonneg (le_of_lt hpi) h0
    · have h2 : 2 * Real.pi * u (offset + k) < 2 * Real.pi * 1 :=
        mul_lt_mul_of_pos_left h1 hpi
      simpa using h2

/-- Witness for C9 with the constant-zero stream and `p = 1`. -/
theorem C9_sample_length_and_range_witness :
    (∀ _k : Nat, 0 ≤ (0:ℝ) ∧ (0:ℝ) < 1)
      ∧ ((ai_parameter_initialization (fun _ => 0) 0 1).length = 2 * 1
          ∧ ∀ x ∈ ai_parameter_initialization (fun _ => 0) 0 1,
              0 ≤ x ∧ x < 2 * Real.pi) :=
  ⟨fun _ => ⟨le_refl 0, by norm_num⟩,
    C9_sample_length_and_range (fun _ => 0) 0 1 (fun _ => ⟨le_refl 0, by norm_num⟩)⟩

/-- C10: every run returns a three-element result whose third component,
the T-count, is exactly `0`, since `calculate_t_count` is a constant
placeholder. -/
theorem C10_t_count_always_zero (n : Nat) (stepF : Nat → List ℝ → Option (List ℝ))
    (H : List PauliTerm) (p : Nat) (u : Nat → ℝ) (offset : Nat) :
    (run_qaoa_with_ai_optimization n stepF H p u offset).2.2 = 0 := rfl

/-! ## Optimizer-loop lemmas -/

theorem optimization_loop_total (g : Nat → List ℝ → List ℝ) (steps : Nat) :
    ∀ (i : Nat) (params : List ℝ),
      optimization_loop (fun j q => some (g j q)) steps i params
        = iterate_pure g steps i params := by
  induction steps with
  | zero => intro i params; rfl
  | succ k ih =>
    intro i params
    simp only [optimization_loop, iterate_pure]
    exact ih (i + 1) (g i params)

theorem optimization_loop_break (stepF : Nat → List ℝ → Option (List ℝ))
    (steps i : Nat) (params : List ℝ) (h : stepF i params = none) :
    optimization_loop stepF (steps + 1) i params = params := by
  simp only [optimization_loop, h]

/-- C8: in the absence of errors (every optimizer step returns normally),
the loop executes exactly the fixed 100 optimizer steps of the source and
the run returns the resulting final parameters together with the final
cost; no convergence-based early stopping occurs. -/
theorem C8_fixed_100_steps (n : Nat) (g : Nat → List ℝ → List ℝ)
    (H : List PauliTerm) (p : Nat) (u : Nat → ℝ) (offset : Nat) :
    run_qaoa_with_ai_optimization n (fun i q => some (g i q)) H p u offset
      = (iterate_pure g 100 0 (ai_parameter_initialization u offset p),
         cost_function n H (iterate_pure g 100 0 (ai_parameter_initialization u offset p)),
         0) := by
  simp only [run_qaoa_with_ai_optimization, optimization_loop_total]
  rfl

/-- C4 counterexample: with a step oracle that fails at the very first
iteration (as an exception surfacing a numerical problem would), the run
still returns a normal `(parameters, cost, T-count)` triple; no error value
accompanies the result, contradicting the claim that the run returns the
last valid parameters together with a NumericalInstabilityError. -/
theorem C4_counterexample :
    run_qaoa_with_ai_optimization 1 (fun _ _ => none) [] 0 (fun _ => 0) 0
      = (ai_parameter_initialization (fun _ => 0) 0 0,
         cost_function 1 [] (ai_parameter_initialization (fun _ => 0) 0 0), 0) := rfl

/-- C4 amended: if an optimizer step raises at the first iteration, the
remaining steps are indeed skipped (the source breaks out of the loop), but
the run returns a normal `(parameters, cost, T-count)` triple carrying no
error; the parameters returned are the ones from before the failing step. -/
theorem C4_amended_break_returns_normal_triple (n : Nat)
    (stepF : Nat → List ℝ → Option (List ℝ)) (H : List PauliTerm) (p : Nat)
    (u : Nat → ℝ) (offset : Nat)
    (hfail : stepF 0 (ai_parameter_initialization u offset p) = none) :
    run_qaoa_with_ai_optimization n stepF H p u offset
      = (ai_parameter_initialization u offset p,
         cost_function n H (ai_parameter_initialization u offset p), 0) := by
  simp only [run_qaoa_with_ai_optimization]
  rw [show (100 : Nat) = 99 + 1 from rfl,
      optimization_loop_break stepF 99 0 (ai_parameter_initialization u offset p) hfail]
  rfl

/-- Witness for the amended C4 with the everywhere-failing step oracle. -/
theorem C4_amended_break_returns_normal_triple_witness :
    ((fun (_ : Nat) (_ : List ℝ) => (none : Option (List ℝ))) 0
        (ai_parameter_initialization (fun _ => 0) 0 1) = none)
      ∧ run_qaoa_with_ai_optimization 1 (fun _ _ => none) [] 1 (fun _ => 0) 0
        = (ai_parameter_initialization (fun _ => 0) 0 1,
           cost_function 1 [] (ai_parameter_initialization (fun _ => 0) 0 1), 0) :=
  ⟨rfl, C4_amended_break_returns_normal_triple 1 (fun _ _ => none) [] 1 (fun _ => 0) 0 rfl⟩

theorem optimization_loop_id (steps : Nat) :
    ∀ (i : Nat) (params : List ℝ),
      optimization_loop (fun _ q => some q) steps i params = params := by
  induction steps with
  | zero => intro i params; rfl
  | succ k ih =>
    intro i params
    simp only [optimization_loop]
    exact ih (i + 1) params

theorem run_fst_id_step (n : Nat) (H : List PauliTerm) (p : Nat) (u : Nat → ℝ)
    (offset : Nat) :
    (run_qaoa_with_ai_optimization n (fun _ q => some q) H p u offset).1
      = ai_parameter_initialization u offset p := by
  simp only [run_qaoa_with_ai_optimization, optimization_loop_id]

/-- C5 counterexample: two runs on identical inputs, whose initial draws
consume the shared global generator stream at the positions the first and
a subsequent run would see, produce first parameters `0` and `π`: the final
parameter vectors differ by far more than `1e-9`. -/
theorem C5_counterexample :
    ¬ (|(run_qaoa_with_ai_optimization 1 (fun _ q => some q) [] 1
            (fun k => if k = 0 then 0 else 1/2) 0).1.getD 0 0
          - (run_qaoa_with_ai_optimization 1 (fun _ q => some q) [] 1
              (fun k => if k = 0 then 0 else 1/2) 2).1.getD 0 0|
        ≤ 1 / 1000000000) := by
  intro hcontra
  rw [run_fst_id_step, run_fst_id_step] at hcontra
  have e0 : (ai_parameter_initialization (fun k => if k = 0 then 0 else 1/2) 0 1).getD 0 0
      = (0 : ℝ) := by
    simp [ai_parameter_initialization, List.range_succ]
  have e2 : (ai_parameter_initialization (fun k => if k = 0 then 0 else 1/2) 2 1).getD 0 0
      = Real.pi := by
    simp [ai_parameter_initialization, List.range_succ]
    ring
  rw [e0, e2] at hcontra
  have hpi := Real.pi_gt_three
  rw [abs_sub_comm, abs_of_pos (by linarith)] at hcontra
  linarith

/-- C5 amended: initialization reads the shared global generator stream, so
determinism holds exactly when the global generator state at the draw is
the same: if two runs with identical `(n, Hamiltonian, p, optimizer)` read
equal stream values, their final parameter vectors are equal. -/
theorem C5_amended_equal_stream_determinism (n : Nat)
    (stepF : Nat → List ℝ → Option (List ℝ)) (H : List PauliTerm) (p : Nat)
    (u1 u2 : Nat → ℝ) (o1 o2 : Nat)
    (hstream : ∀ k < 2 * p, u1 (o1 + k) = u2 (o2 + k)) :
    (run_qaoa_with_ai_optimization n stepF H p u1 o1).1
      = (run_qaoa_with_ai_optimization n stepF H p u2 o2).1 := by
  have hinit : ai_parameter_initialization u1 o1 p
      = ai_parameter_initialization u2 o2 p := by
    unfold ai_parameter_initialization
    refine List.map_congr_left (fun k hk => ?_)
    rw [hstream k (List.mem_range.mp hk)]
  simp only [run_qaoa_with_ai_optimization, hinit]

/-- Witness for the amended C5 with equal streams and offsets. -/
theorem C5_amended_equal_stream_determinism_witness :
    (∀ k < 2 * 1, (fun _ : Nat => (0:ℝ)) (0 + k) = (fun _ : Nat => (0:ℝ)) (0 + k))
      ∧ (run_qaoa_with_ai_optimization 1 (fun _ _ => none) [] 1 (fun _ => 0) 0).1
        = (run_qaoa_with_ai_optimization 1 (fun _ _ => none) [] 1 (fun _ => 0) 0).1 :=
  ⟨fun _ _ => rfl,
    C5_amended_equal_stream_determinism 1 (fun _ _ => none) [] 1
      (fun _ => 0) (fun _ => 0) 0 0 (fun _ _ => rfl)⟩

/-- C6 counterexample: a parameter vector of odd length `3` is not
rejected: the builder silently ignores the extra entry, producing the same
circuit whether the unused third entry is `5` or `9`; no ConfigurationError
exists in the code. -/
theorem C6_counterexample :
    qaoa_circuit_gates 1 [⟨1, [(0, Axis.Z)]⟩] [0, 0, 5]
      = qaoa_circuit_gates 1 [⟨1, [(0, Axis.Z)]⟩] [0, 0, 9] := rfl

/-- C6 amended: the builder performs no length validation: it uses
`p = len / 2` layers and the circuit depends only on the first
`2 * (len / 2)` parameters, so a wrong-length vector is silently truncated
rather than rejected. -/
theorem C6_amended_silent_truncation (n : Nat) (H : List PauliTerm)
    (params : List ℝ) :
    qaoa_circuit_gates n H params
      = qaoa_circuit_gates n H (params.take (2 * (params.length / 2))) := by
  have hlen : (params.take (2 * (params.length / 2))).length
      = 2 * (params.length / 2) := by
    rw [List.length_take]
    omega
  have hgetD : ∀ i < 2 * (params.length / 2),
      (params.take (2 * (params.length / 2))).getD i 0 = params.getD i 0 := by
    intro i hi
    rw [List.getD_eq_getElem?_getD, List.getD_eq_getElem?_getD,
        List.getElem?_take_of_lt hi]
  simp only [qaoa_circuit_gates, hlen]
  have hp : 2 * (params.length / 2) / 2 = params.length / 2 := by omega
  rw [hp]
  congr 1
  refine List.flatMap_congr (fun i hi => ?_)
  have hi2 : i < params.length / 2 := List.mem_range.mp hi
  rw [hgetD i (by omega), hgetD (params.length / 2 + i) (by omega)]

theorem applyGateN_pauliExp_invalid {n : Nat} (t : PauliTerm) (gamma : ℝ)
    (qa : Nat × Axis) (hqa : qa ∈ t.paulis) (hbad : n ≤ qa.1) :
    ∀ w : StateVector n, applyGateN n (Gate.pauliExp t gamma) w = none := by
  intro w
  have hcond : ¬ ((t.paulis.all fun x => decide (x.1 < n)) = true) := by
    rw [List.all_eq_true]
    intro hall
    have := of_decide_eq_true (hall qa hqa)
    omega
  simp only [applyGateN, if_neg hcond]

theorem runGatesN_eq_none_of_mem {n : Nat} (g : Gate)
    (hfail : ∀ w : StateVector n, applyGateN n g w = none) :
    ∀ (gs : List Gate), g ∈ gs → ∀ v : StateVector n, runGatesN n gs v = none := by
  intro gs
  induction gs with
  | nil => intro hg; cases hg
  | cons g0 gs ih =>
    intro hg v
    unfold runGatesN
    rw [List.foldlM_cons]
    rcases List.mem_cons.mp hg with h | h
    · subst h
      rw [hfail v]
      rfl
    · cases h0 : applyGateN n g0 v with
      | none => rfl
      | some w =>
        simp only [Option.bind_eq_bind, Option.some_bind]
        exact ih h w

/-- C7 counterexample: a Hamiltonian referencing qubit index `5` with
`n = 2` raises nothing at construction or circuit-build time: the builder
succeeds and emits the out-of-range gate, and the failure occurs during
simulation (the run of the gates errors), contradicting the claim. -/
theorem C7_counterexample :
    qaoa_circuit_gates 2 [⟨1, [(5, Axis.Z)]⟩] [0, 0]
      = [Gate.hadamard 0, Gate.hadamard 1,
         Gate.pauliExp ⟨1, [(5, Axis.Z)]⟩ 0, Gate.rx 0 0, Gate.rx 1 0]
      ∧ runGatesN 2 (qaoa_circuit_gates 2 [⟨1, [(5, Axis.Z)]⟩] [0, 0]) (initState 2)
        = none :=
  ⟨rfl, rfl⟩

/-- C7 amended: no validation of qubit indices happens at
Hamiltonian-construction or circuit-build time: a term referencing an
out-of-range qubit flows unchecked into the built circuit, and the error
surfaces only during simulation, where running the gates fails. -/
theorem C7_amended_error_only_during_simulation (n : Nat) (H : List PauliTerm)
    (params : List ℝ) (t : PauliTerm) (qa : Nat × Axis)
    (ht : t ∈ H) (hqa : qa ∈ t.paulis) (hbad : n ≤ qa.1)
    (hp : 1 ≤ params.length / 2) :
    Gate.pauliExp t (params.getD 0 0) ∈ qaoa_circuit_gates n H params
      ∧ runGatesN n (qaoa_circuit_gates n H params) (initState n) = none := by
  have hmem : Gate.pauliExp t (params.getD 0 0) ∈ qaoa_circuit_gates n H params := by
    simp only [qaoa_circuit_gates, alphatensor_quantum_t_reduction]
    refine List.mem_append_right _ ?_
    rw [List.mem_flatMap]
    refine ⟨0, List.mem_range.mpr (by omega), ?_⟩
    refine List.mem_append_left _ ?_
    exact List.mem_map.mpr ⟨t, ht, rfl⟩
  exact ⟨hmem,
    runGatesN_eq_none_of_mem _ (applyGateN_pauliExp_invalid t _ qa hqa hbad)
      _ hmem (initState n)⟩

/-- Witness for the amended C7 at the concrete out-of-range instance of the
specification scenario (qubit index 5 with a 2-qubit register). -/
theorem C7_amended_error_only_during_simulation_witness :
    ((⟨1, [(5, Axis.Z)]⟩ : PauliTerm) ∈ [(⟨1, [(5, Axis.Z)]⟩ : PauliTerm)]
        ∧ ((5, Axis.Z) : Nat × Axis) ∈ (⟨1, [(5, Axis.Z)]⟩ : PauliTerm).paulis
        ∧ 2 ≤ 5 ∧ 1 ≤ ([(0:ℝ), 0] : List ℝ).length / 2)
      ∧ (Gate.pauliExp ⟨1, [(5, Axis.Z)]⟩ (([(0:ℝ), 0] : List ℝ).getD 0 0)
            ∈ qaoa_circuit_gates 2 [⟨1, [(5, Axis.Z)]⟩] [0, 0]
          ∧ runGatesN 2 (qaoa_circuit_gates 2 [⟨1, [(5, Axis.Z)]⟩] [0, 0])
              (initState 2) = none) :=
  ⟨⟨List.mem_singleton.mpr rfl, List.mem_singleton.mpr rfl, by norm_num, by norm_num⟩,
    C7_amended_error_only_during_simulation 2 [⟨1, [(5, Axis.Z)]⟩] [0, 0]
      ⟨1, [(5, Axis.Z)]⟩ (5, Axis.Z) (List.mem_singleton.mpr rfl)
      (List.mem_singleton.mpr rfl) (by norm_num) (by norm_num)⟩

end AlphaQuantum
